import Mathlib

/-!
Verification of `mget.py`: a shallow embedding of the chunk planner,
chunk fetcher, result sorting and file assembly, together with a model of
the orchestrator `mget` over an abstract HTTP server and filesystem.
Bytes are modelled as natural numbers, byte strings as `List Nat`.
-/

set_option maxHeartbeats 1000000

namespace Mget

/-- A chunk argument tuple as built by `get_chunk_args` inside
`write_chunks` (mget.py line 100-101): `(urlParts, i, min(i + chunk_size - 1, size), i)`,
with the url component omitted.  `start` and `byteEnd` are the bounds put in
the `Range` header; `key` is the value used later as sort key. -/
structure ChunkArg where
  start : Nat
  byteEnd : Nat
  key : Nat
  deriving DecidableEq, Repr

/-- Python `range(0, stop, step)` for a positive step: the list
`0, step, 2*step, ...` of the `ceil(stop/step)` multiples of `step`
below `stop`. -/
def pyRange (stop step : Nat) : List Nat :=
  List.range' 0 ((stop + step - 1) / step) step

/-- `get_chunk_args` (mget.py line 100-101): returns
`(i, min(i + chunk_size - 1, size), i)`. -/
def get_chunk_args (chunk_size size i : Nat) : ChunkArg :=
  ⟨i, min (i + chunk_size - 1) size, i⟩

/-- The chunk plan of `write_chunks` (mget.py lines 104-106):
`max_size = min(size, chunk_size * max_chunks + 10)` and
`[get_chunk_args(i) for i in range(0, max_size, chunk_size)][:max_chunks]`. -/
def chunk_args (size chunk_size max_chunks : Nat) : List ChunkArg :=
  ((pyRange (min size (chunk_size * max_chunks + 10)) chunk_size).map
    (get_chunk_args chunk_size size)).take max_chunks

/-- `get_chunk` (mget.py lines 77-92): issues a `GET` with header
`Range: bytes=start-byteEnd` and returns `(key, body)`.  An HTTP server
answering a satisfiable range request whose last-byte position may exceed
the resource delivers the bytes from `start` through `min(byteEnd, size - 1)`
inclusive, which is exactly `(file.drop start).take (byteEnd + 1 - start)`. -/
def get_chunk (file : List Nat) (a : ChunkArg) : Nat × List Nat :=
  (a.key, (file.drop a.start).take (a.byteEnd + 1 - a.start))

/-- Lexicographic comparison of byte strings, as Python compares `bytes`. -/
def bytesLe : List Nat → List Nat → Bool
  | [], _ => true
  | _ :: _, [] => false
  | a :: as, b :: bs => if a < b then true else if b < a then false else bytesLe as bs

/-- Python tuple comparison on `(int, bytes)` pairs, the order used by
`sorted(parts)` in `mget` (line 133): compare keys first, and only on equal
keys compare the payload byte strings. -/
def pairLe (x y : Nat × List Nat) : Bool :=
  if x.1 < y.1 then true else if y.1 < x.1 then false else bytesLe x.2 y.2

/-- `pairLe` as a relation. -/
def PairLeR (x y : Nat × List Nat) : Prop := pairLe x y = true

instance : DecidableRel PairLeR := fun x y => instDecidableEqBool (pairLe x y) true

/-- Comparison of `(key, payload)` pairs by key alone. -/
def KeyLeR (x y : Nat × List Nat) : Prop := x.1 ≤ y.1

instance : DecidableRel KeyLeR := fun x y => Nat.decLe x.1 y.1

/-- Python's `sorted` on the `(key, payload)` pairs of `mget` line 133.
Tuple comparison is a linear order, so every sorting algorithm produces this
same list; we use insertion sort. -/
def pySort (l : List (Nat × List Nat)) : List (Nat × List Nat) :=
  List.insertionSort PairLeR l

/-- Sorting the same pairs by key alone. -/
def keySort (l : List (Nat × List Nat)) : List (Nat × List Nat) :=
  List.insertionSort KeyLeR l

/-- The reassembly of `mget` (lines 131-135): the file is created empty and
the payloads are appended in `sorted` order, so its final content is the
concatenation of the payloads of the sorted result list. -/
def assemble (parts : List (Nat × List Nat)) : List Nat :=
  (pySort parts).flatMap Prod.snd

/-- The abstract HTTP server behind the url: the remote file's bytes, the
status answered to the `HEAD` request of `get_head_resp`, the value of its
`Content-length` header when present, and the status answered to the ranged
`GET` probe of `is_range_supported`. -/
structure Server where
  file : List Nat
  headStatus : Nat
  contentLength : Option String
  rangeStatus : Nat

/-- Whitespace as stripped by Python's `int(str)` conversion. -/
def isPySpace (c : Char) : Bool :=
  c == ' ' || c == '\t' || c == '\n' || c == '\r' || c == '\x0b' || c == '\x0c'

/-- Digit string to number. -/
def digitsToNat (l : List Char) : Nat :=
  l.foldl (fun acc c => acc * 10 + (c.toNat - 48)) 0

/-- Python's `int(str)`: optional surrounding whitespace, an optional sign,
then a nonempty run of digits; anything else raises, modelled as `none`. -/
def pyInt (s : String) : Option Int :=
  let t := ((s.toList.dropWhile isPySpace).reverse.dropWhile isPySpace).reverse
  match t with
  | '-' :: ds => if !ds.isEmpty && ds.all Char.isDigit then some (-(digitsToNat ds : Int)) else none
  | '+' :: ds => if !ds.isEmpty && ds.all Char.isDigit then some (digitsToNat ds : Int) else none
  | ds => if !ds.isEmpty && ds.all Char.isDigit then some (digitsToNat ds : Int) else none

/-- `get_size` (mget.py lines 57-65): `HEAD` the path; on a status other
than 200 the program exits, and `int(resp.getheader('Content-length'))`
raises when the header is missing or not a valid integer literal.  All
failure exits are modelled as `none`. -/
def get_size (srv : Server) : Option Int :=
  if srv.headStatus == 200 then srv.contentLength.bind pyInt else none

/-- `is_range_supported` (mget.py lines 67-75): ranged `GET`, true iff the
response status is 206. -/
def is_range_supported (srv : Server) : Bool :=
  srv.rangeStatus == 206

/-- The distinct failure exits of `mget`, named after the spec's taxonomy:
destination present without `-f` (line 122-124), range probe not answered
with 206 (line 125-127), size unavailable (inside `get_size`), and the
exception of the first failed fetch observed by `write_chunks`' loop over
`as_completed`, carrying that chunk's key. -/
inductive MgetError where
  | destinationExists
  | rangeUnsupported
  | sizeUnavailable
  | fetchError (key : Nat)
  deriving DecidableEq, Repr

/-- Network requests issued by a run, in order: the ranged capability probe
of `is_range_supported`, the `HEAD` request of `get_size`, and one ranged
`GET` per chunk. -/
inductive NetEvent where
  | rangeProbe
  | headReq
  | chunkReq (start byteEnd : Nat)
  deriving DecidableEq, Repr

/-- Observable outcome of a run of `mget`: how it terminated, the final
state of the destination file (`none` = absent), and the network requests
issued in order. -/
structure MgetOutcome where
  result : Except MgetError Unit
  fs : Option (List Nat)
  events : List NetEvent
  deriving Repr

/-- `mget` (mget.py lines 114-136) composed with `write_chunks`
(lines 94-112).  `fs0` is the prior state of the resolved destination file;
`sched` reorders the submitted chunk arguments into the completion order in
which `as_completed` yields them (the thread pool guarantees it is a
permutation); `fails a = true` means the fetch of chunk `a` raises.
Steps, in the source's order: the existing-file check (no network), the
range-support probe, `get_size`, the chunk fetches; on the first failed
fetch in completion order the exception propagates and the destination is
never opened; otherwise the file is created empty and the sorted payloads
are appended. -/
def mget (srv : Server) (fs0 : Option (List Nat)) (force : Bool)
    (chunk_size max_chunks : Nat)
    (sched : List ChunkArg → List ChunkArg) (fails : ChunkArg → Bool) :
    MgetOutcome :=
  if fs0.isSome && !force then
    ⟨.error .destinationExists, fs0, []⟩
  else if !is_range_supported srv then
    ⟨.error .rangeUnsupported, fs0, [.rangeProbe]⟩
  else
    match get_size srv with
    | none => ⟨.error .sizeUnavailable, fs0, [.rangeProbe, .headReq]⟩
    | some sz =>
      let arrival := sched (chunk_args sz.toNat chunk_size max_chunks)
      let events := NetEvent.rangeProbe :: NetEvent.headReq ::
        arrival.map (fun a => NetEvent.chunkReq a.start a.byteEnd)
      match arrival.find? fails with
      | some a => ⟨.error (.fetchError a.key), fs0, events⟩
      | none => ⟨.ok (), some (assemble (arrival.map (get_chunk srv.file))), events⟩


lemma bytesLe_total : ∀ a b : List Nat, bytesLe a b = true ∨ bytesLe b a = true
  | [], _ => Or.inl rfl
  | _ :: _, [] => Or.inr rfl
  | a :: as, b :: bs => by
      simp only [bytesLe]
      rcases Nat.lt_trichotomy a b with h | h | h
      · left; rw [if_pos h]
      · subst h
        rw [if_neg (Nat.lt_irrefl a), if_neg (Nat.lt_irrefl a),
          if_neg (Nat.lt_irrefl a), if_neg (Nat.lt_irrefl a)]
        exact bytesLe_total as bs
      · right; rw [if_pos h]

lemma bytesLe_trans : ∀ a b c : List Nat,
    bytesLe a b = true → bytesLe b c = true → bytesLe a c = true
  | [], _, _ => fun _ _ => rfl
  | _ :: _, [], _ => fun h _ => by simp [bytesLe] at h
  | _ :: _, _ :: _, [] => fun _ h => by simp [bytesLe] at h
  | a :: as, b :: bs, c :: cs => by
      simp only [bytesLe]
      intro h1 h2
      rcases Nat.lt_trichotomy a b with hab | hab | hab
      · rcases Nat.lt_trichotomy b c with hbc | hbc | hbc
        · rw [if_pos (Nat.lt_trans hab hbc)]
        · subst hbc; rw [if_pos hab]
        · rw [if_neg (Nat.lt_asymm hbc), if_pos hbc] at h2; exact absurd h2 (by simp)
      · subst hab
        rcases Nat.lt_trichotomy a c with hbc | hbc | hbc
        · rw [if_pos hbc]
        · subst hbc
          rw [if_neg (Nat.lt_irrefl a), if_neg (Nat.lt_irrefl a)] at h1 h2 ⊢
          exact bytesLe_trans as bs cs h1 h2
        · rw [if_neg (Nat.lt_asymm hbc), if_pos hbc] at h2; exact absurd h2 (by simp)
      · rw [if_neg (Nat.lt_asymm hab), if_pos hab] at h1; exact absurd h1 (by simp)

lemma bytesLe_antisymm : ∀ a b : List Nat,
    bytesLe a b = true → bytesLe b a = true → a = b
  | [], [] => fun _ _ => rfl
  | [], _ :: _ => fun _ h => by simp [bytesLe] at h
  | _ :: _, [] => fun h _ => by simp [bytesLe] at h
  | a :: as, b :: bs => by
      simp only [bytesLe]
      intro h1 h2
      rcases Nat.lt_trichotomy a b with hab | hab | hab
      · rw [if_neg (Nat.lt_asymm hab), if_pos hab] at h2; exact absurd h2 (by simp)
      · subst hab
        rw [if_neg (Nat.lt_irrefl a), if_neg (Nat.lt_irrefl a)] at h1 h2
        rw [bytesLe_antisymm as bs h1 h2]
      · rw [if_neg (Nat.lt_asymm hab), if_pos hab] at h1; exact absurd h1 (by simp)

lemma pairLe_of_key_lt {x y : Nat × List Nat} (h : x.1 < y.1) : PairLeR x y := by
  unfold PairLeR pairLe
  rw [if_pos h]

lemma pairLe_total (x y : Nat × List Nat) : PairLeR x y ∨ PairLeR y x := by
  unfold PairLeR pairLe
  rcases Nat.lt_trichotomy x.1 y.1 with h | h | h
  · left; rw [if_pos h]
  · rw [h, if_neg (Nat.lt_irrefl y.1), if_neg (Nat.lt_irrefl y.1),
      if_neg (Nat.lt_irrefl y.1), if_neg (Nat.lt_irrefl y.1)]
    exact bytesLe_total x.2 y.2
  · right; rw [if_pos h]

lemma pairLe_trans (x y z : Nat × List Nat) :
    PairLeR x y → PairLeR y z → PairLeR x z := by
  unfold PairLeR pairLe
  intro h1 h2
  rcases Nat.lt_trichotomy x.1 y.1 with hab | hab | hab
  · rcases Nat.lt_trichotomy y.1 z.1 with hbc | hbc | hbc
    · rw [if_pos (Nat.lt_trans hab hbc)]
    · rw [← hbc, if_pos hab]
    · rw [if_neg (Nat.lt_asymm hbc), if_pos hbc] at h2; exact absurd h2 (by simp)
  · rw [hab]
    rw [hab, if_neg (Nat.lt_irrefl y.1), if_neg (Nat.lt_irrefl y.1)] at h1
    rcases Nat.lt_trichotomy y.1 z.1 with hbc | hbc | hbc
    · rw [if_pos hbc]
    · rw [hbc, if_neg (Nat.lt_irrefl z.1), if_neg (Nat.lt_irrefl z.1)] at h2 ⊢
      exact bytesLe_trans _ _ _ h1 h2
    · rw [if_neg (Nat.lt_asymm hbc), if_pos hbc] at h2; exact absurd h2 (by simp)
  · rw [if_neg (Nat.lt_asymm hab), if_pos hab] at h1; exact absurd h1 (by simp)

lemma pairLe_antisymm (x y : Nat × List Nat) :
    PairLeR x y → PairLeR y x → x = y := by
  unfold PairLeR pairLe
  intro h1 h2
  rcases Nat.lt_trichotomy x.1 y.1 with hab | hab | hab
  · rw [if_neg (Nat.lt_asymm hab), if_pos hab] at h2; exact absurd h2 (by simp)
  · rw [hab, if_neg (Nat.lt_irrefl y.1), if_neg (Nat.lt_irrefl y.1)] at h1 h2
    obtain ⟨x1, x2⟩ := x
    obtain ⟨y1, y2⟩ := y
    simp only at hab h1 h2
    rw [hab, bytesLe_antisymm _ _ h1 h2]
  · rw [if_neg (Nat.lt_asymm hab), if_pos hab] at h1; exact absurd h1 (by simp)

instance : IsTotal (Nat × List Nat) PairLeR := ⟨pairLe_total⟩

instance : IsTrans (Nat × List Nat) PairLeR := ⟨pairLe_trans⟩

instance : IsAntisymm (Nat × List Nat) PairLeR := ⟨pairLe_antisymm⟩

instance : IsTotal (Nat × List Nat) KeyLeR := ⟨fun x y => Nat.le_total x.1 y.1⟩

instance : IsTrans (Nat × List Nat) KeyLeR := ⟨fun _ _ _ => Nat.le_trans⟩

lemma pySort_perm (l : List (Nat × List Nat)) : (pySort l).Perm l :=
  List.perm_insertionSort PairLeR l

lemma pySort_sorted (l : List (Nat × List Nat)) : List.Sorted PairLeR (pySort l) :=
  List.sorted_insertionSort PairLeR l

lemma pySort_congr {l₁ l₂ : List (Nat × List Nat)} (h : l₁.Perm l₂) :
    pySort l₁ = pySort l₂ :=
  List.eq_of_perm_of_sorted ((pySort_perm l₁).trans (h.trans (pySort_perm l₂).symm))
    (pySort_sorted l₁) (pySort_sorted l₂)

lemma pySort_eq_self {l : List (Nat × List Nat)} (h : List.Sorted PairLeR l) :
    pySort l = l :=
  List.eq_of_perm_of_sorted (pySort_perm l) (pySort_sorted l) h

lemma ceil_CM (C M : Nat) (hC : 0 < C) : (C * M + C - 1) / C = M := by
  have h : C * M + C - 1 = C - 1 + C * M := by omega
  rw [h, Nat.add_mul_div_left _ _ hC, Nat.div_eq_of_lt (by omega)]
  omega

lemma ceil_div_le (S C M : Nat) (hC : 0 < C) (h : S ≤ C * M) : (S + C - 1) / C ≤ M := by
  have h1 : S + C - 1 ≤ C - 1 + C * M := by omega
  calc (S + C - 1) / C ≤ (C - 1 + C * M) / C := Nat.div_le_div_right h1
    _ = M := by rw [Nat.add_mul_div_left _ _ hC, Nat.div_eq_of_lt (by omega)]; omega

lemma le_ceil_mul (x C : Nat) (hC : 0 < C) : x ≤ ((x + C - 1) / C) * C := by
  have h1 := Nat.div_add_mod (x + C - 1) C
  have h2 : (x + C - 1) % C < C := Nat.mod_lt _ hC
  have h3 : C * ((x + C - 1) / C) = ((x + C - 1) / C) * C := Nat.mul_comm _ _
  omega

lemma ceil_ge_succ (x C M : Nat) (hC : 0 < C) (h : C * M < x) : M < (x + C - 1) / C := by
  have h1 : C * (M + 1) ≤ x + C - 1 := by rw [Nat.mul_succ]; omega
  have h4 : (C * (M + 1)) / C ≤ (x + C - 1) / C := Nat.div_le_div_right h1
  rw [Nat.mul_div_cancel_left _ hC] at h4
  omega

lemma mul_lt_of_lt_ceil {x C j : Nat} (hC : 0 < C) (h : j < (x + C - 1) / C) :
    C * j < x := by
  have h1 := Nat.div_add_mod (x + C - 1) C
  have h2 : (x + C - 1) % C < C := Nat.mod_lt _ hC
  have h3 : C * (j + 1) ≤ C * ((x + C - 1) / C) := Nat.mul_le_mul_left C h
  have h4 : C * (j + 1) = C * j + C := Nat.mul_succ C j
  omega

lemma take_range' (s step : Nat) :
    ∀ n m : Nat, (List.range' s n step).take m = List.range' s (min m n) step := by
  intro n
  induction n generalizing s with
  | zero => intro m; simp
  | succ n ih =>
    intro m
    rw [List.range'_succ]
    cases m with
    | zero => simp
    | succ m =>
      rw [List.take_succ_cons, ih (s + step) m, Nat.succ_min_succ, List.range'_succ]

lemma chunk_args_length (S C M : Nat) :
    (chunk_args S C M).length = min M ((min S (C * M + 10) + C - 1) / C) := by
  simp [chunk_args, pyRange]

lemma count_eq (S C M : Nat) (hC : 0 < C) :
    min M ((min S (C * M + 10) + C - 1) / C) = (min S (C * M) + C - 1) / C := by
  rcases le_or_lt S (C * M) with h | h
  · have e1 : min S (C * M + 10) = S := Nat.min_eq_left (by omega)
    have e2 : min S (C * M) = S := Nat.min_eq_left h
    rw [e1, e2, Nat.min_eq_right (ceil_div_le S C M hC h)]
  · have e1 : C * M < min S (C * M + 10) := lt_min h (by omega)
    have h2 := ceil_ge_succ (min S (C * M + 10)) C M hC e1
    have e2 : min S (C * M) = C * M := Nat.min_eq_right (by omega)
    rw [e2, ceil_CM C M hC, Nat.min_eq_left (by omega)]

lemma chunk_args_get (S C M : Nat) (i : Nat) (h : i < (chunk_args S C M).length) :
    (chunk_args S C M).get ⟨i, h⟩ = get_chunk_args C S (C * i) := by
  have h1 : i < min M ((min S (C * M + 10) + C - 1) / C) := by
    rw [← chunk_args_length]; exact h
  simp only [chunk_args, pyRange, List.get_eq_getElem]
  rw [List.getElem_take, List.getElem_map, List.getElem_range']
  simp

lemma chunk_args_mem {S C M : Nat} {a : ChunkArg} (h : a ∈ chunk_args S C M) :
    ∃ j, a = get_chunk_args C S (C * j) := by
  have h1 : a ∈ (pyRange (min S (C * M + 10)) C).map (get_chunk_args C S) :=
    (List.take_sublist _ _).mem h
  obtain ⟨i, hi, rfl⟩ := List.mem_map.mp h1
  obtain ⟨j, _, rfl⟩ := List.mem_range'.mp hi
  exact ⟨j, by rw [Nat.zero_add]⟩

lemma chunk_args_pairwise (S C M : Nat) (hC : 0 < C) :
    (chunk_args S C M).Pairwise (fun a b => a.key < b.key) := by
  have h1 : (List.range' 0 ((min S (C * M + 10) + C - 1) / C) C).Pairwise (· < ·) :=
    List.pairwise_lt_range' _ _ C hC
  have h2 := h1.map (get_chunk_args C S)
    (S := fun a b => a.key < b.key) (fun a b h => h)
  exact h2.sublist (List.take_sublist _ _)

lemma canonical_sorted (file : List Nat) (S C M : Nat) (hC : 0 < C) :
    List.Sorted PairLeR ((chunk_args S C M).map (get_chunk file)) := by
  rw [List.Sorted, List.pairwise_map]
  exact (chunk_args_pairwise S C M hC).imp (fun h => pairLe_of_key_lt h)

lemma payload_take (file : List Nat) (C i : Nat) (hC : 0 < C) :
    (file.drop i).take (min (i + C - 1) file.length + 1 - i) = (file.drop i).take C := by
  rw [List.take_eq_take]
  rw [List.length_drop]
  omega

lemma range_chunks_flatten (file : List Nat) (C : Nat) :
    ∀ k a : Nat,
      ((List.range' a k C).map (fun o => (file.drop o).take C)).flatten
        = (file.drop a).take (k * C) := by
  intro k
  induction k with
  | zero => intro a; simp
  | succ k ih =>
    intro a
    rw [List.range'_succ, List.map_cons, List.flatten_cons, ih (a + C)]
    have h1 : file.drop (a + C) = (file.drop a).drop C := (List.drop_drop C a file).symm
    rw [h1, ← List.take_add]
    congr 1
    ring

lemma kC_min (S C M : Nat) (hC : 0 < C) :
    min (min M ((min S (C * M + 10) + C - 1) / C) * C) S = min S (C * M) := by
  rcases le_or_lt S (C * M) with h | h
  · have e1 : min S (C * M + 10) = S := Nat.min_eq_left (by omega)
    have e2 : min S (C * M) = S := Nat.min_eq_left h
    rw [e1, e2, Nat.min_eq_right (ceil_div_le S C M hC h)]
    exact Nat.min_eq_right (le_ceil_mul S C hC)
  · have e1 : C * M < min S (C * M + 10) := lt_min h (by omega)
    have h2 := ceil_ge_succ (min S (C * M + 10)) C M hC e1
    have e2 : min S (C * M) = C * M := Nat.min_eq_right (by omega)
    have e3 : min M ((min S (C * M + 10) + C - 1) / C) = M := Nat.min_eq_left (by omega)
    have e4 : M * C ≤ S := by rw [Nat.mul_comm]; omega
    rw [e2, e3, Nat.min_eq_left e4]
    exact Nat.mul_comm M C

lemma chunk_args_eq_map_range (S C M : Nat) :
    chunk_args S C M
      = (List.range' 0 (min M ((min S (C * M + 10) + C - 1) / C)) C).map
          (get_chunk_args C S) := by
  rw [chunk_args, pyRange, ← List.map_take, take_range']

lemma assemble_canonical (file : List Nat) (C M : Nat) (hC : 0 < C) :
    assemble ((chunk_args file.length C M).map (get_chunk file))
      = file.take (min file.length (C * M)) := by
  rw [assemble, pySort_eq_self (canonical_sorted file file.length C M hC)]
  rw [List.flatMap, chunk_args_eq_map_range, List.map_map, List.map_map]
  have h3 : ((Prod.snd ∘ get_chunk file) ∘ get_chunk_args C file.length)
      = fun o : Nat => (file.drop o).take (min (o + C - 1) file.length + 1 - o) := rfl
  rw [h3]
  have h4 : (fun o : Nat => (file.drop o).take (min (o + C - 1) file.length + 1 - o))
      = fun o : Nat => (file.drop o).take C := by
    funext o
    exact payload_take file C o hC
  rw [h4, range_chunks_flatten file C _ 0, List.drop_zero, List.take_eq_take,
    kC_min file.length C M hC]
  omega

/-- C1 (counterexample): the claim says the plan for `S = 3000000`,
`C = 1048576`, `M = 4` ends its specs at `1048575`, `2097151`, `2999999`;
the code's plan ends the last spec at `3000000`, because `get_chunk_args`
caps the end at `size`, not `size - 1`. -/
theorem C1_counterexample :
    (chunk_args 3000000 1048576 4).map (fun a => (a.start, a.byteEnd)) ≠
      [(0, 1048575), (1048576, 2097151), (2097152, 2999999)] := by decide

/-- C1 (amended): every planned spec's `byteEndInclusive` equals
`min(offset + C - 1, S)` — the file size, not `S - 1` — and for
`S = 3000000`, `C = 1048576`, `M = 4` the plan is exactly the three specs
`[0, 1048575]`, `[1048576, 2097151]`, `[2097152, 3000000]`. -/
theorem C1_plan_ends :
    (∀ S C M : Nat, ∀ a ∈ chunk_args S C M, a.byteEnd = min (a.start + C - 1) S) ∧
    (chunk_args 3000000 1048576 4).map (fun a => (a.start, a.byteEnd)) =
      [(0, 1048575), (1048576, 2097151), (2097152, 3000000)] := by
  constructor
  · intro S C M a ha
    obtain ⟨j, rfl⟩ := chunk_args_mem ha
    rfl
  · decide

/-- Witness for C1: a concrete spec of the plan for `S = 10`, `C = 3`,
`M = 2` with its end value. -/
theorem C1_plan_ends_witness :
    (⟨3, 5, 3⟩ : ChunkArg) ∈ chunk_args 10 3 2 ∧
      (⟨3, 5, 3⟩ : ChunkArg).byteEnd = min ((⟨3, 5, 3⟩ : ChunkArg).start + 3 - 1) 10 :=
  ⟨by decide, C1_plan_ends.1 10 3 2 ⟨3, 5, 3⟩ (by decide)⟩

/-- C2: for positive `S`, `C`, `M` the planned chunk count is
`ceil(min(S, C*M) / C)` and every planned spec except the last spans
exactly `C` bytes. -/
theorem C2_count_and_spans (S C M : Nat) (hS : 0 < S) (hC : 0 < C) (hM : 0 < M) :
    (chunk_args S C M).length = (min S (C * M) + C - 1) / C ∧
    ∀ a ∈ (chunk_args S C M).dropLast, a.byteEnd + 1 - a.start = C := by
  refine ⟨by rw [chunk_args_length, count_eq S C M hC], ?_⟩
  intro a ha
  rw [List.mem_iff_getElem] at ha
  obtain ⟨i, hi, hEq⟩ := ha
  have hi2 : i < (chunk_args S C M).length - 1 := by
    rw [List.length_dropLast] at hi; exact hi
  rw [List.getElem_dropLast] at hEq
  have hlen : i + 1 < (chunk_args S C M).length := by omega
  have hq : i + 1 < (min S (C * M + 10) + C - 1) / C := by
    rw [chunk_args_length] at hlen
    omega
  have hx : C * (i + 1) < min S (C * M + 10) := mul_lt_of_lt_ceil hC hq
  have hs : C * (i + 1) = C * i + C := Nat.mul_succ C i
  have hget : (chunk_args S C M)[i] = get_chunk_args C S (C * i) :=
    chunk_args_get S C M i (by omega)
  rw [hget] at hEq
  rw [← hEq]
  show min (C * i + C - 1) S + 1 - C * i = C
  omega

/-- Witness for C2: the plan for `S = 10`, `C = 3`, `M = 2` has
`ceil(min(10, 6) / 3) = 2` chunks, and its non-last spec `[0, 2]` spans 3
bytes. -/
theorem C2_count_and_spans_witness :
    (chunk_args 10 3 2).length = (min 10 (3 * 2) + 3 - 1) / 3 ∧
      (⟨0, 2, 0⟩ : ChunkArg) ∈ (chunk_args 10 3 2).dropLast ∧
      (⟨0, 2, 0⟩ : ChunkArg).byteEnd + 1 - (⟨0, 2, 0⟩ : ChunkArg).start = 3 :=
  ⟨(C2_count_and_spans 10 3 2 (by decide) (by decide) (by decide)).1, by decide,
    (C2_count_and_spans 10 3 2 (by decide) (by decide) (by decide)).2 ⟨0, 2, 0⟩ (by decide)⟩

/-- C3: reassembly is invariant to fetch completion order: for any
permutation `parts` of the planned chunk results, sorting by key and
concatenating yields exactly the source bytes in `[0, min(S, C*M))`. -/
theorem C3_reassembly_order_invariant (file : List Nat) (C M : Nat)
    (hC : 0 < C) (hM : 0 < M) (parts : List (Nat × List Nat))
    (hperm : parts.Perm ((chunk_args file.length C M).map (get_chunk file))) :
    assemble parts = file.take (min file.length (C * M)) := by
  have h1 : assemble parts
      = assemble ((chunk_args file.length C M).map (get_chunk file)) := by
    rw [assemble, assemble, pySort_congr hperm]
  rw [h1, assemble_canonical file C M hC]

/-- Witness for C3: the two chunk results of a 4-byte file with `C = 3`,
`M = 2`, arriving in reversed order, assemble to the whole file. -/
theorem C3_reassembly_order_invariant_witness :
    assemble [(3, [13]), (0, [10, 11, 12])]
      = [10, 11, 12, 13].take (min ([10, 11, 12, 13] : List Nat).length (3 * 2)) :=
  C3_reassembly_order_invariant [10, 11, 12, 13] 3 2 (by decide) (by decide)
    [(3, [13]), (0, [10, 11, 12])] (by decide)

lemma canonical_keys (file : List Nat) (S C M : Nat) :
    ((chunk_args S C M).map (get_chunk file)).map Prod.fst
      = List.range' 0 (min M ((min S (C * M + 10) + C - 1) / C)) C := by
  rw [chunk_args_eq_map_range, List.map_map, List.map_map]
  have h : ((Prod.fst ∘ get_chunk file) ∘ get_chunk_args C S) = id := rfl
  rw [h, List.map_id]

lemma keys_nodup (file : List Nat) (S C M : Nat) (hC : 0 < C) :
    (((chunk_args S C M).map (get_chunk file)).map Prod.fst).Nodup := by
  rw [canonical_keys]
  exact List.nodup_range' _ _ C hC

/-- C10: the keys of the chunk results are pairwise distinct multiples of
`chunk_size`, so the assembly's lexicographic sort of `(key, payload)`
pairs orders the results exactly as sorting by key alone. -/
theorem C10_distinct_keys_key_sort (file : List Nat) (C M : Nat) (hC : 0 < C)
    (parts : List (Nat × List Nat))
    (hperm : parts.Perm ((chunk_args file.length C M).map (get_chunk file))) :
    (parts.map Prod.fst).Nodup ∧ (∀ p ∈ parts, p.1 % C = 0) ∧
    pySort parts = keySort parts := by
  have hnd : (parts.map Prod.fst).Nodup :=
    (hperm.map Prod.fst).nodup_iff.mpr (keys_nodup file file.length C M hC)
  have hmul : ∀ p ∈ parts, p.1 % C = 0 := by
    intro p hp
    have hp2 : p ∈ (chunk_args file.length C M).map (get_chunk file) := hperm.subset hp
    obtain ⟨a, ha, rfl⟩ := List.mem_map.mp hp2
    obtain ⟨j, rfl⟩ := chunk_args_mem ha
    show (C * j) % C = 0
    exact Nat.mul_mod_right C j
  refine ⟨hnd, hmul, ?_⟩
  have hk : ((keySort parts).map Prod.fst).Nodup :=
    ((List.perm_insertionSort KeyLeR parts).map Prod.fst).nodup_iff.mpr hnd
  have hne : (keySort parts).Pairwise (fun a b : Nat × List Nat => a.1 ≠ b.1) :=
    List.pairwise_map.mp hk
  have hsortedKey : List.Sorted KeyLeR (keySort parts) :=
    List.sorted_insertionSort KeyLeR parts
  have hpair : List.Sorted PairLeR (keySort parts) := by
    have hand : (keySort parts).Pairwise fun a b => KeyLeR a b ∧ a.1 ≠ b.1 :=
      List.Pairwise.and hsortedKey hne
    exact hand.imp fun h => pairLe_of_key_lt (Nat.lt_of_le_of_ne h.1 h.2)
  exact List.eq_of_perm_of_sorted
    ((pySort_perm parts).trans (List.perm_insertionSort KeyLeR parts).symm)
    (pySort_sorted parts) hpair

/-- Witness for C10: a concrete out-of-order result list of a 4-byte file
with `C = 3`, `M = 2`. -/
theorem C10_distinct_keys_key_sort_witness :
    ((([(3, [13]), (0, [10, 11, 12])] : List (Nat × List Nat)).map Prod.fst).Nodup ∧
      (∀ p ∈ ([(3, [13]), (0, [10, 11, 12])] : List (Nat × List Nat)), p.1 % 3 = 0) ∧
      pySort [(3, [13]), (0, [10, 11, 12])] = keySort [(3, [13]), (0, [10, 11, 12])]) :=
  C10_distinct_keys_key_sort [10, 11, 12, 13] 3 2 (by decide)
    [(3, [13]), (0, [10, 11, 12])] (by decide)

/-- C6: when the resolved destination exists and `force` is off, `mget`
fails with `DestinationExists`, the existing file is unchanged, and no
network request is issued. -/
theorem C6_destination_exists (srv : Server) (content : List Nat) (C M : Nat)
    (sched : List ChunkArg → List ChunkArg) (fails : ChunkArg → Bool) :
    (mget srv (some content) false C M sched fails).result
        = .error .destinationExists ∧
    (mget srv (some content) false C M sched fails).fs = some content ∧
    (mget srv (some content) false C M sched fails).events = [] :=
  ⟨rfl, rfl, rfl⟩

/-- C5: when the range probe is not answered with status 206, `mget` fails
with `RangeUnsupported` and the destination is untouched; moreover
`is_range_supported` returns true iff the probe status is 206. -/
theorem C5_range_unsupported (srv : Server) (fs0 : Option (List Nat))
    (force : Bool) (C M : Nat)
    (sched : List ChunkArg → List ChunkArg) (fails : ChunkArg → Bool)
    (hgate : (fs0.isSome && !force) = false)
    (hrange : srv.rangeStatus ≠ 206) :
    (mget srv fs0 force C M sched fails).result = .error .rangeUnsupported ∧
    (mget srv fs0 force C M sched fails).fs = fs0 ∧
    ∀ s : Server, is_range_supported s = true ↔ s.rangeStatus = 206 := by
  have hb : is_range_supported srv = false := by
    simp [is_range_supported, hrange]
  refine ⟨?_, ?_, fun s => by simp [is_range_supported]⟩ <;>
    simp [mget, hgate, hb]

/-- Witness for C5: a server answering the probe with 200. -/
theorem C5_range_unsupported_witness :
    (mget ⟨[], 200, some "0", 200⟩ none false 1 1 id (fun _ => false)).result
        = .error .rangeUnsupported ∧
    (mget ⟨[], 200, some "0", 200⟩ none false 1 1 id (fun _ => false)).fs = none ∧
    ∀ s : Server, is_range_supported s = true ↔ s.rangeStatus = 206 :=
  C5_range_unsupported ⟨[], 200, some "0", 200⟩ none false 1 1 id (fun _ => false)
    rfl (by decide)

/-- C4: when at least one chunk fetch fails, `mget` terminates with the
first fetch error observed in completion order and the destination file is
never created, truncated or written. -/
theorem C4_fetch_failure (srv : Server) (fs0 : Option (List Nat)) (force : Bool)
    (C M : Nat) (sched : List ChunkArg → List ChunkArg) (fails : ChunkArg → Bool)
    (hgate : (fs0.isSome && !force) = false)
    (hrange : srv.rangeStatus = 206)
    (sz : Int) (hsize : get_size srv = some sz)
    (a : ChunkArg)
    (hfind : (sched (chunk_args sz.toNat C M)).find? fails = some a) :
    (mget srv fs0 force C M sched fails).result = .error (.fetchError a.key) ∧
    (mget srv fs0 force C M sched fails).fs = fs0 := by
  have hb : is_range_supported srv = true := by
    simp [is_range_supported, hrange]
  constructor <;> simp [mget, hgate, hb, hsize, hfind]

/-- Witness for C4: a 4-byte file fetched in two chunks where the fetch of
the chunk at offset 0 fails. -/
theorem C4_fetch_failure_witness :
    (mget ⟨[0, 1, 2, 3], 200, some "4", 206⟩ none false 2 2 id
        (fun a => a.start == 0)).result = .error (.fetchError 0) ∧
    (mget ⟨[0, 1, 2, 3], 200, some "4", 206⟩ none false 2 2 id
        (fun a => a.start == 0)).fs = none :=
  C4_fetch_failure ⟨[0, 1, 2, 3], 200, some "4", 206⟩ none false 2 2 id
    (fun a => a.start == 0) rfl rfl 4 (by decide) ⟨0, 1, 0⟩ (by decide)

/-- C7: `get_size` fails iff the HEAD status is not 200 or the
content-length header is absent or not numeric; on status 200 with a
numeric header it returns the declared length. -/
theorem C7_probe_size (srv : Server) :
    (get_size srv = none ↔
      srv.headStatus ≠ 200 ∨ srv.contentLength = none ∨
        ∃ s, srv.contentLength = some s ∧ pyInt s = none) ∧
    ∀ s v, srv.headStatus = 200 → srv.contentLength = some s →
      pyInt s = some v → get_size srv = some v := by
  obtain ⟨f, st, cl, rs⟩ := srv
  constructor
  · by_cases h : st = 200
    · subst h
      cases cl with
      | none => simp [get_size]
      | some s =>
        cases hp : pyInt s with
        | none => simp [get_size, hp]
        | some v => simp [get_size, hp]
    · have hb : (st == 200) = false := by simp [h]
      simp [get_size, hb, h]
  · intro s v h1 h2 h3
    subst h1
    subst h2
    simp [get_size, h3]

/-- Witness for C7: status 200 with header `"1234"`. -/
theorem C7_probe_size_witness :
    get_size ⟨[], 200, some "1234", 206⟩ = some 1234 :=
  (C7_probe_size ⟨[], 200, some "1234", 206⟩).2 "1234" 1234 rfl rfl (by decide)

/-- C8 (counterexample): in a successful run both the size probe and the
range check occur, but the range check is issued first — the HEAD request
is not before the range probe, refuting the claimed order. -/
theorem C8_counterexample :
    NetEvent.headReq ∈
        (mget ⟨[], 200, some "0", 206⟩ none false 1 1 id (fun _ => false)).events ∧
    NetEvent.rangeProbe ∈
        (mget ⟨[], 200, some "0", 206⟩ none false 1 1 id (fun _ => false)).events ∧
    ¬ ((mget ⟨[], 200, some "0", 206⟩ none false 1 1 id
          (fun _ => false)).events.indexOf NetEvent.headReq <
        (mget ⟨[], 200, some "0", 206⟩ none false 1 1 id
          (fun _ => false)).events.indexOf NetEvent.rangeProbe) := by decide

/-- C8 (amended): in every run of `mget` the range-support check precedes
the size probe: the event trace is empty, or the probe alone, or starts
with the range probe immediately followed by the HEAD request. -/
theorem C8_range_check_before_size_probe (srv : Server) (fs0 : Option (List Nat))
    (force : Bool) (C M : Nat)
    (sched : List ChunkArg → List ChunkArg) (fails : ChunkArg → Bool) :
    (mget srv fs0 force C M sched fails).events = [] ∨
    (mget srv fs0 force C M sched fails).events = [NetEvent.rangeProbe] ∨
    ∃ rest, (mget srv fs0 force C M sched fails).events
        = NetEvent.rangeProbe :: NetEvent.headReq :: rest := by
  unfold mget
  split
  · exact Or.inl rfl
  · split
    · exact Or.inr (Or.inl rfl)
    · split
      · exact Or.inr (Or.inr ⟨_, rfl⟩)
      · dsimp only
        split
        · exact Or.inr (Or.inr ⟨_, rfl⟩)
        · exact Or.inr (Or.inr ⟨_, rfl⟩)

/-- C9: a zero-length remote file (ranges supported, destination absent)
downloads successfully and the output file exists with length 0. -/
theorem C9_empty_file (srv : Server) (C M : Nat)
    (sched : List ChunkArg → List ChunkArg) (fails : ChunkArg → Bool)
    (hsched : ∀ l, (sched l).Perm l)
    (hsize : get_size srv = some 0)
    (hrange : srv.rangeStatus = 206) :
    (mget srv none false C M sched fails).result = .ok () ∧
    (mget srv none false C M sched fails).fs = some [] := by
  have hb : is_range_supported srv = true := by
    simp [is_range_supported, hrange]
  have hplan : chunk_args 0 C M = [] := by
    rw [chunk_args_eq_map_range]
    have h0 : (min 0 (C * M + 10) + C - 1) / C = 0 := by
      rw [Nat.min_eq_left (Nat.zero_le _)]
      cases C with
      | zero => rfl
      | succ c => exact Nat.div_eq_of_lt (by omega)
    rw [h0]
    simp
  have harr : sched (chunk_args 0 C M) = [] := by
    rw [hplan]
    exact (hsched []).eq_nil
  constructor <;>
    simp [mget, hb, hsize, harr, assemble, pySort, List.insertionSort]

/-- Witness for C9: a server with an empty file and content length `"0"`. -/
theorem C9_empty_file_witness :
    (mget ⟨[], 200, some "0", 206⟩ none false 1 1 id (fun _ => false)).result
        = .ok () ∧
    (mget ⟨[], 200, some "0", 206⟩ none false 1 1 id (fun _ => false)).fs
        = some [] :=
  C9_empty_file ⟨[], 200, some "0", 206⟩ 1 1 id (fun _ => false)
    (fun l => List.Perm.refl l) (by decide) rfl

end Mget
